import Mathlib

/-!
Shallow embedding of the uproot-custom C++ core: the `BinaryBuffer` cursor
abstraction, the element readers (basic types, TString, TArray, STL
containers, framing readers, C-style arrays) and the per-event driver loop
`py_read_data`.  Bytes are modelled as `Nat` values below 256, the byte blob
and the event-offset table as lists, the cursor as an index into the blob.
C++ exceptions are modelled with `Except`; reading past the end of the blob
(undefined behaviour in the C++) is modelled as an `outOfBounds` error.
-/

/-- ROOT byte-count marker bit (`kByteCountMask` in the source). -/
def kByteCountMask : Nat := 0x40000000

/-- Bitwise complement of `kByteCountMask` on 32 bits (`~kByteCountMask`). -/
def kByteCountMaskCompl : Nat := 0xBFFFFFFF

/-- Errors surfaced by the decoder.  The C++ throws `std::runtime_error`
with a formatted message; each constructor records the data interpolated
into the corresponding message. -/
inductive Err where
  /-- `read_fNBytes` saw a value without the `0x40000000` marker. -/
  | invalidFraming : Err
  /-- A framing reader's region was not exactly consumed
  (child reader name, expected length, actual length). -/
  | framingLengthMismatch : String → Int → Int → Err
  /-- The driver's per-event length check failed
  (event index, expected length, actual length, root reader name). -/
  | eventLengthMismatch : Nat → Nat → Nat → String → Err
  /-- An unsupported operation was requested of a reader. -/
  | unsupportedOperation : String → Err
  /-- Primitive read at an unsupported byte width. -/
  | unsupportedTypeWidth : Err
  /-- A read ran past the end of the byte blob (UB in the C++). -/
  | outOfBounds : Err
  /-- A read-until-end loop made no progress (the C++ loops forever). -/
  | noProgress : Err
deriving DecidableEq, Repr

deriving instance DecidableEq for Except

/-- The `BinaryBuffer`: byte blob, event-offset table, movable cursor.
The cursor is the index of the next unread byte. -/
structure BinaryBuffer where
  data : List Nat
  offsets : List Nat
  pos : Nat
deriving DecidableEq, Repr

/-- `entries()`: the offset table has length E+1. -/
def BinaryBuffer.entries (b : BinaryBuffer) : Nat := b.offsets.length - 1

/-- Read one byte at the cursor and advance it. -/
def BinaryBuffer.readByte (b : BinaryBuffer) : Except Err (Nat × BinaryBuffer) :=
  match b.data[b.pos]? with
  | some v => .ok (v, { b with pos := b.pos + 1 })
  | none => .error .outOfBounds

/-- Read `w` bytes at the cursor as a big-endian unsigned value, advancing
the cursor (the `bswap` of `BinaryBuffer::read<T>` on a little-endian host). -/
def BinaryBuffer.readBE : Nat → BinaryBuffer → Except Err (Nat × BinaryBuffer)
  | 0, b => .ok (0, b)
  | w + 1, b => do
    let (hi, b1) ← b.readByte
    let (lo, b2) ← BinaryBuffer.readBE w b1
    .ok (hi * 256 ^ w + lo, b2)

/-- `BinaryBuffer::read<T>`: the `switch (sizeof(T))` admits widths 1, 2, 4
and 8 and byte-swaps from big-endian; any other width throws. -/
def BinaryBuffer.readPrim (w : Nat) (b : BinaryBuffer) : Except Err (Nat × BinaryBuffer) :=
  if w = 1 ∨ w = 2 ∨ w = 4 ∨ w = 8 then b.readBE w
  else .error .unsupportedTypeWidth

/-- Reinterpret a `w`-byte unsigned value as two's-complement signed. -/
def toSigned (w : Nat) (v : Nat) : Int :=
  if v < 2 ^ (8 * w - 1) then (v : Int) else (v : Int) - 2 ^ (8 * w)

/-- Read `n` raw bytes at the cursor, advancing it (the
`for (i...) push_back(read<uint8_t>())` loops of the string readers). -/
def BinaryBuffer.readN : Nat → BinaryBuffer → Except Err (List Nat × BinaryBuffer)
  | 0, b => .ok ([], b)
  | n + 1, b => do
    let (v, b1) ← b.readByte
    let (rest, b2) ← BinaryBuffer.readN n b1
    .ok (v :: rest, b2)

/-- `read_fVersion()`: a signed 16-bit big-endian value. -/
def BinaryBuffer.read_fVersion (b : BinaryBuffer) : Except Err (Int × BinaryBuffer) := do
  let (v, b1) ← b.readPrim 2
  .ok (toSigned 2 v, b1)

/-- `read_fNBytes()`: read a 32-bit big-endian value; throw unless the
`kByteCountMask` bit is set; return the value with that bit cleared. -/
def BinaryBuffer.read_fNBytes (b : BinaryBuffer) : Except Err (Nat × BinaryBuffer) := do
  let (byte_count, b1) ← b.readPrim 4
  if byte_count &&& kByteCountMask = 0 then .error .invalidFraming
  else .ok (byte_count &&& kByteCountMaskCompl, b1)

/-- Scan a byte list up to and including the first zero byte; `none` when
there is no zero (the C++ `while (*m_cursor != 0)` runs off the blob). -/
def takeToNull : List Nat → Option (List Nat)
  | [] => none
  | c :: rest =>
    if c = 0 then some [c]
    else match takeToNull rest with
      | some s => some (c :: s)
      | none => none

/-- `read_null_terminated_string()`: advance past the first zero byte and
return the bytes from the start cursor up to and including that zero
(`std::string(start, m_cursor)` with `m_cursor` one past the zero). -/
def BinaryBuffer.read_null_terminated_string (b : BinaryBuffer) :
    Except Err (List Nat × BinaryBuffer) :=
  match takeToNull (b.data.drop b.pos) with
  | some s => .ok (s, { b with pos := b.pos + s.length })
  | none => .error .outOfBounds

/-- Big-endian value of a byte list (specification-side helper relating
`readBE` to the bytes it consumed). -/
def beVal (l : List Nat) : Nat := l.foldl (fun a c => a * 256 + c) 0

/-!
## Element readers

A reader's `read` is modelled as a state transformer on the reader's own
accumulated columns paired with the buffer.  `ChildRead σ` is the type of
an `IElementReader::read(BinaryBuffer&)` call of a reader whose columns
have type `σ`.
-/

/-- One `read(BinaryBuffer&)` call of a reader with column state `σ`. -/
abbrev ChildRead (σ : Type) := σ → BinaryBuffer → Except Err (σ × BinaryBuffer)

/-- Invoke a child reader `n` times in sequence (the
`for (i = 0; i < fSize; i++) child->read(buffer)` loops). -/
def childIter (child : ChildRead σ) : Nat → ChildRead σ
  | 0 => fun s b => .ok (s, b)
  | n + 1 => fun s b => do
    let (s1, b1) ← child s b
    childIter child n s1 b1

/-- Lift a child reader to also count how many times it is invoked. -/
def countingChild (child : ChildRead σ) : ChildRead (σ × Nat) :=
  fun p b => (child p.1 b).map (fun q => ((q.1, p.2 + 1), q.2))

/-- `BasicTypeReader<T>::read` for an unsigned integral `T` of width `w`:
append one big-endian primitive to the owned vector. -/
def BasicTypeReader.readU (w : Nat) : ChildRead (List Nat) :=
  fun st b => do
    let (v, b1) ← b.readPrim w
    .ok (st ++ [v], b1)

/-- `BasicTypeReader<T>::read` for a signed integral `T` of width `w`. -/
def BasicTypeReader.readI (w : Nat) : ChildRead (List Int) :=
  fun st b => do
    let (v, b1) ← b.readPrim w
    .ok (st ++ [toSigned w v], b1)

/-- Columns of a string-producing reader (TString, STLString):
a byte payload plus a jagged offsets vector seeded with 0. -/
structure StrColumn where
  data : List Nat
  offsets : List Nat
deriving DecidableEq, Repr

/-- Initial string column state (`m_data(), m_offsets({0})`). -/
def StrColumn.init : StrColumn := ⟨[], [0]⟩

/-- `TStringReader::read`: one length byte `fSize` (escaped by 255 to a
32-bit length), then `fSize` payload bytes, then push the new total. -/
def TStringReader.read : ChildRead StrColumn :=
  fun st b => do
    let (sz0, b1) ← b.readByte
    let (fSize, b2) ← if sz0 = 255 then b1.readPrim 4 else .ok (sz0, b1)
    let (bytes, b3) ← b2.readN fSize
    .ok (⟨st.data ++ bytes, st.offsets ++ [(st.data ++ bytes).length]⟩, b3)

/-- The optional `fNBytes` + `fVersion` header of the STL readers
(executed when the construction-time `with_header` flag is set). -/
def readSTLHeader (withHeader : Bool) (b : BinaryBuffer) : Except Err BinaryBuffer :=
  if withHeader then do
    let (_, b1) ← b.read_fNBytes
    let (_, b2) ← b1.read_fVersion
    .ok b2
  else .ok b

/-- `STLSeqReader::read`: optional header, 32-bit `fSize`, push
`offsets.back() + fSize`, then invoke the element reader `fSize` times. -/
def STLSeqReader.read (withHeader : Bool) (child : ChildRead σ) :
    ChildRead (σ × List Nat) :=
  fun p b => do
    let b1 ← readSTLHeader withHeader b
    let (fSize, b2) ← b1.readPrim 4
    let offs1 := p.2 ++ [p.2.getLastD 0 + fSize]
    let (s1, b3) ← childIter child fSize p.1 b2
    .ok ((s1, offs1), b3)

/-- One loop iteration of `STLMapReader::read`: the key reader's `read`
followed by the value reader's `read`. -/
def STLMapReader.pairRead (keyR : ChildRead σ) (valR : ChildRead τ) :
    ChildRead (σ × τ) :=
  fun p b => do
    let (ks1, b1) ← keyR p.1 b
    let (vs1, b2) ← valR p.2 b1
    .ok ((ks1, vs1), b2)

/-- `STLMapReader::read`: optional header, 32-bit `fSize`, push
`offsets.back() + fSize`, then `fSize` (key, value) reads. -/
def STLMapReader.read (withHeader : Bool) (keyR : ChildRead σ) (valR : ChildRead τ) :
    ChildRead ((σ × τ) × List Nat) :=
  fun p b => do
    let b1 ← readSTLHeader withHeader b
    let (fSize, b2) ← b1.readPrim 4
    let offs1 := p.2 ++ [p.2.getLastD 0 + fSize]
    let (kv1, b3) ← childIter (STLMapReader.pairRead keyR valR) fSize p.1 b2
    .ok ((kv1, offs1), b3)

/-- `STLStringReader::read`: optional header, TString-style length, push
`offsets.back() + fSize`, then append `fSize` payload bytes. -/
def STLStringReader.read (withHeader : Bool) : ChildRead StrColumn :=
  fun st b => do
    let b1 ← readSTLHeader withHeader b
    let (sz0, b2) ← b1.readByte
    let (fSize, b3) ← if sz0 = 255 then b2.readPrim 4 else .ok (sz0, b2)
    let (bytes, b4) ← b3.readN fSize
    .ok (⟨st.data ++ bytes, st.offsets ++ [st.offsets.getLastD 0 + fSize]⟩, b4)

/-- Read `n` big-endian elements of width `w` (the element loop of
`TArrayReader<T>::read`); elements are kept as raw bit patterns. -/
def BinaryBuffer.readElems (w : Nat) : Nat → BinaryBuffer → Except Err (List Nat × BinaryBuffer)
  | 0, b => .ok ([], b)
  | n + 1, b => do
    let (v, b1) ← b.readPrim w
    let (rest, b2) ← BinaryBuffer.readElems w n b1
    .ok (v :: rest, b2)

/-- Columns of a `TArrayReader<T>`: raw element values plus offsets. -/
structure ArrColumn where
  offsets : List Nat
  data : List Nat
deriving DecidableEq, Repr

/-- Initial TArray column state (`m_offsets({0}), m_data()`). -/
def ArrColumn.init : ArrColumn := ⟨[0], []⟩

/-- `TArrayReader<T>::read` with element width `w`: 32-bit `fSize`, push
`offsets.back() + fSize`, then consume `fSize` elements. -/
def TArrayReader.read (w : Nat) : ChildRead ArrColumn :=
  fun st b => do
    let (fSize, b1) ← b.readPrim 4
    let offs1 := st.offsets ++ [st.offsets.getLastD 0 + fSize]
    let (elems, b2) ← b1.readElems w fSize
    .ok (⟨offs1, st.data ++ elems⟩, b2)

/-!
## Framing readers, C-style arrays and the driver
-/

/-- `NBytesVersionReader::read` (canonical variant, `uproot-custom.cc`):
read `fNBytes` and `fVersion`, compute the expected end position, invoke
the child, then perform the length check exactly as written in the source:
`end_pos - start_pos != fNBytes - 2`, where `end_pos` was just computed as
`start_pos + fNBytes - 2` (pointer arithmetic, modelled on `Int`) and the
right-hand side is the `uint32_t` value `fNBytes - 2` (modelled mod 2^32). -/
def NBytesVersionReader.read (childName : String) (child : ChildRead σ) :
    ChildRead σ :=
  fun s b => do
    let (fNBytes, b1) ← b.read_fNBytes
    let (_fVersion, b2) ← b1.read_fVersion
    let start_pos : Int := b2.pos
    let end_pos : Int := (b2.pos : Int) + (fNBytes : Int) - 2
    let (s1, b3) ← child s b2
    if end_pos - start_pos ≠ ((fNBytes : Int) - 2) % 2 ^ 32 then
      .error (.framingLengthMismatch childName (((fNBytes : Int) - 2) % 2 ^ 32)
        (end_pos - start_pos))
    else .ok (s1, b3)

/-- The header phase of `ObjectHeaderReader::read`: read `fNBytes`, then a
32-bit tag; the new-class tag `-1` is followed by a null-terminated class
name that is consumed but not retained.  Returns the declared byte count,
the cursor position just after the `fNBytes` field, and the buffer. -/
def ObjectHeaderReader.consumeHeader (b : BinaryBuffer) :
    Except Err (Nat × Nat × BinaryBuffer) := do
  let (nbytes, b1) ← b.read_fNBytes
  let (fTag, b2) ← b1.readPrim 4
  let b3 ← if toSigned 4 fTag = -1 then
      (b2.read_null_terminated_string).map (fun p => p.2)
    else .ok b2
  .ok (nbytes, b1.pos, b3)

/-- `ObjectHeaderReader::read` (canonical variant): header phase, then the
child reader, then fail unless the cursor landed exactly on
`end_pos = (position after fNBytes) + nbytes`. -/
def ObjectHeaderReader.read (childName : String) (child : ChildRead σ) :
    ChildRead σ :=
  fun s b => do
    let (nbytes, p1, b3) ← ObjectHeaderReader.consumeHeader b
    let end_pos := p1 + nbytes
    let start_pos := b3.pos
    let (s1, b4) ← child s b3
    if b4.pos ≠ end_pos then
      .error (.framingLengthMismatch childName ((end_pos : Int) - (start_pos : Int))
        ((b4.pos : Int) - (start_pos : Int)))
    else .ok (s1, b4)

/-- Modelled from the spec: the iteration of the default
`IElementReader::read(BinaryBuffer&, const uint8_t* end_pos)` of the
canonical header `uproot-custom/uproot-custom.hh`, which is not among the
sources: "invoke the child until the cursor reaches that end", returning
the number of invocations.  The loop is written with explicit fuel; a
child call that does not advance the cursor would loop forever in the
C++ and is modelled as a `noProgress` error, and the wrapper below passes
`endPos - b.pos` fuel, which never runs out while the child advances. -/
def readUntilEndFuel (child : ChildRead σ) (endPos : Nat) :
    Nat → Nat → σ → BinaryBuffer → Except Err (Nat × σ × BinaryBuffer)
  | fuel, count, s, b =>
    if b.pos < endPos then
      match fuel with
      | 0 => .error .noProgress
      | fuel + 1 =>
        match child s b with
        | .error e => .error e
        | .ok (s1, b1) =>
          if b.pos < b1.pos then
            readUntilEndFuel child endPos fuel (count + 1) s1 b1
          else .error .noProgress
    else .ok (count, s, b)

/-- Modelled from the spec: invoke the child until the cursor reaches
`endPos`, returning the number of invocations (see `readUntilEndFuel`). -/
def readUntilEnd (child : ChildRead σ) (endPos : Nat) (count : Nat) (s : σ)
    (b : BinaryBuffer) : Except Err (Nat × σ × BinaryBuffer) :=
  readUntilEndFuel child endPos (endPos - b.pos) count s b

/-- The dynamic (`flat_size ≤ 0`) branch of `CStyleArrayReader::read`:
find the first event offset strictly beyond the cursor, read children up
to that end position, and push `offsets.back() + count`. -/
def CStyleArrayReader.readDyn (child : ChildRead σ) : ChildRead (σ × List Nat) :=
  fun p b =>
    match b.offsets.find? (fun off => decide (b.pos < off)) with
    | none => .error .outOfBounds
    | some endPos => do
      let (count, s1, b1) ← readUntilEnd child endPos 0 p.1 b
      .ok ((s1, p.2 ++ [p.2.getLastD 0 + count]), b1)

/-- `CStyleArrayReader::read` (canonical variant).  `flat_size > 0`
delegates to the element reader's counted bulk read (abstracted as
`childCount`, with the reader's own offsets untouched); otherwise the
dynamic branch runs. -/
def CStyleArrayReader.read (flatSize : Int) (childCount : Int → ChildRead σ)
    (child : ChildRead σ) : ChildRead (σ × List Nat) :=
  fun p b =>
    if flatSize > 0 then
      (childCount flatSize p.1 b).map (fun q => ((q.1, p.2), q.2))
    else
      CStyleArrayReader.readDyn child p b

/-- The expected byte length of event `i`:
`offsets[i + 1] - offsets[i]` in the driver's check. -/
def eventLen (offsets : List Nat) (i : Nat) : Nat :=
  offsets.getD (i + 1) 0 - offsets.getD i 0

/-- The event loop of `uproot::py_read_data` (canonical variant): for each
remaining event, capture the cursor, invoke the root reader, and compare
the consumed length against the offset table's per-event length; `i` is
the index of the next event. -/
def driverLoop (readF : ChildRead σ) (name : String) (offsets : List Nat) :
    Nat → Nat → σ → BinaryBuffer → Except Err (σ × BinaryBuffer)
  | 0, _, s, b => .ok (s, b)
  | n + 1, i, s, b =>
    match readF s b with
    | .error e => .error e
    | .ok (s1, b1) =>
      let expected := eventLen offsets i
      let got := b1.pos - b.pos
      if got ≠ expected then .error (.eventLengthMismatch i expected got name)
      else driverLoop readF name offsets n (i + 1) s1 b1

/-- `uproot::py_read_data`: build the buffer, run the per-event loop over
all `offsets.length - 1` events, and return the root reader's `data()`. -/
def py_read_data (readF : ChildRead σ) (dataF : σ → α) (name : String)
    (data offsets : List Nat) (s0 : σ) : Except Err α :=
  let b0 : BinaryBuffer := ⟨data, offsets, 0⟩
  (driverLoop readF name offsets (offsets.length - 1) 0 s0 b0).map (fun p => dataF p.1)

/-- Run a reader once per event with no length checking, collecting the
list of byte counts consumed by the successive events (specification-side
helper used to state the driver's behaviour). -/
def runTrace (readF : ChildRead σ) : Nat → σ → BinaryBuffer →
    Except Err (σ × BinaryBuffer × List Nat)
  | 0, s, b => .ok (s, b, [])
  | n + 1, s, b =>
    match readF s b with
    | .error e => .error e
    | .ok (s1, b1) => do
      let (s2, b2, ls) ← runTrace readF n s1 b1
      .ok (s2, b2, (b1.pos - b.pos) :: ls)

/-!
## Buffer-level lemmas
-/

theorem readByte_ok {b : BinaryBuffer} {v : Nat} {b1 : BinaryBuffer}
    (h : b.readByte = .ok (v, b1)) :
    b.data[b.pos]? = some v ∧ b1 = { b with pos := b.pos + 1 } := by
  unfold BinaryBuffer.readByte at h
  cases hx : b.data[b.pos]? with
  | none => rw [hx] at h; cases h
  | some w =>
    rw [hx] at h
    cases h
    exact ⟨rfl, rfl⟩

theorem beVal_foldl (l : List Nat) :
    ∀ a : Nat, l.foldl (fun a c => a * 256 + c) a = a * 256 ^ l.length + beVal l := by
  induction l with
  | nil => intro a; simp [beVal]
  | cons c l ih =>
    intro a
    simp only [List.foldl_cons, List.length_cons]
    rw [ih (a * 256 + c)]
    have hc : beVal (c :: l) = c * 256 ^ l.length + beVal l := by
      have : beVal (c :: l) = l.foldl (fun a c => a * 256 + c) c := by
        simp [beVal]
      rw [this, ih c]
    rw [hc]; ring

theorem beVal_cons (c : Nat) (l : List Nat) :
    beVal (c :: l) = c * 256 ^ l.length + beVal l := by
  have : beVal (c :: l) = l.foldl (fun a c => a * 256 + c) c := by
    simp [beVal]
  rw [this, beVal_foldl]

theorem readBE_ok : ∀ (w : Nat) (b : BinaryBuffer) (v : Nat) (b1 : BinaryBuffer),
    b.readBE w = .ok (v, b1) →
    v = beVal ((b.data.drop b.pos).take w) ∧
    b1 = { b with pos := b.pos + w } ∧
    (0 < w → b.pos + w ≤ b.data.length) := by
  intro w
  induction w with
  | zero =>
    intro b v b1 h
    unfold BinaryBuffer.readBE at h
    cases h
    exact ⟨by simp [beVal], by simp, by omega⟩
  | succ w ih =>
    intro b v b1 h
    unfold BinaryBuffer.readBE at h
    simp only [bind, Except.bind] at h
    cases hx : b.readByte with
    | error e => rw [hx] at h; cases h
    | ok p =>
      obtain ⟨c, b'⟩ := p
      rw [hx] at h
      simp only at h
      cases hy : b'.readBE w with
      | error e => rw [hy] at h; cases h
      | ok q =>
        obtain ⟨lo, b2⟩ := q
        rw [hy] at h
        simp only at h
        cases h
        obtain ⟨hb, h1⟩ := readByte_ok hx
        obtain ⟨hlo, hb2, hble⟩ := ih b' lo b1 hy
        obtain ⟨hlt, hget⟩ := List.getElem?_eq_some.mp hb
        subst h1
        simp only at hlo hb2 hble
        have hdrop : b.data.drop b.pos = b.data[b.pos] :: b.data.drop (b.pos + 1) :=
          List.drop_eq_getElem_cons hlt
        have hlen : ((b.data.drop (b.pos + 1)).take w).length = w := by
          rcases Nat.eq_zero_or_pos w with hw | hw
          · subst hw; simp
          · have := hble hw
            simp [List.length_take, List.length_drop]
            omega
        refine ⟨?_, ?_, ?_⟩
        · rw [hdrop, List.take_succ_cons, beVal_cons, hlen, hget, hlo]
        · rw [hb2]
          have : b.pos + 1 + w = b.pos + (w + 1) := by omega
          rw [this]
        · intro _
          rcases Nat.eq_zero_or_pos w with hw | hw
          · subst hw; omega
          · have := hble hw
            omega

theorem readPrim_ok {w : Nat} {b : BinaryBuffer} {v : Nat} {b1 : BinaryBuffer}
    (h : b.readPrim w = .ok (v, b1)) :
    (w = 1 ∨ w = 2 ∨ w = 4 ∨ w = 8) ∧ b.pos + w ≤ b.data.length ∧
    v = beVal ((b.data.drop b.pos).take w) ∧ b1 = { b with pos := b.pos + w } := by
  unfold BinaryBuffer.readPrim at h
  split at h
  · rename_i hw
    obtain ⟨hv, hb1, hble⟩ := readBE_ok _ _ _ _ h
    exact ⟨hw, hble (by omega), hv, hb1⟩
  · cases h

theorem readN_ok : ∀ (n : Nat) (b : BinaryBuffer) (bs : List Nat) (b1 : BinaryBuffer),
    b.readN n = .ok (bs, b1) →
    bs = (b.data.drop b.pos).take n ∧ bs.length = n ∧
    b1 = { b with pos := b.pos + n } ∧
    (0 < n → b.pos + n ≤ b.data.length) := by
  intro n
  induction n with
  | zero =>
    intro b bs b1 h
    unfold BinaryBuffer.readN at h
    cases h
    exact ⟨by simp, rfl, by simp, by omega⟩
  | succ n ih =>
    intro b bs b1 h
    unfold BinaryBuffer.readN at h
    simp only [bind, Except.bind] at h
    cases hx : b.readByte with
    | error e => rw [hx] at h; cases h
    | ok p =>
      obtain ⟨c, b'⟩ := p
      rw [hx] at h
      simp only at h
      cases hy : b'.readN n with
      | error e => rw [hy] at h; cases h
      | ok q =>
        obtain ⟨rest, b2⟩ := q
        rw [hy] at h
        simp only at h
        cases h
        obtain ⟨hb, h1⟩ := readByte_ok hx
        obtain ⟨hrest, hrl, hb2, hble⟩ := ih b' rest b1 hy
        obtain ⟨hlt, hget⟩ := List.getElem?_eq_some.mp hb
        subst h1
        simp only at hrest hb2 hble
        have hdrop : b.data.drop b.pos = b.data[b.pos] :: b.data.drop (b.pos + 1) :=
          List.drop_eq_getElem_cons hlt
        refine ⟨?_, ?_, ?_, ?_⟩
        · rw [hdrop, List.take_succ_cons, hget, hrest]
        · simp [hrl]
        · rw [hb2]
          have : b.pos + 1 + n = b.pos + (n + 1) := by omega
          rw [this]
        · intro _
          rcases Nat.eq_zero_or_pos n with hw | hw
          · subst hw; omega
          · have := hble hw
            omega

theorem takeToNull_spec : ∀ l : List Nat, (0 : Nat) ∈ l →
    ∃ pre post, l = pre ++ 0 :: post ∧ (0 : Nat) ∉ pre ∧
      takeToNull l = some (pre ++ [0]) := by
  intro l
  induction l with
  | nil => intro h; simp at h
  | cons c rest ih =>
    intro h
    by_cases hc : c = 0
    · subst hc
      exact ⟨[], rest, rfl, by simp, by simp [takeToNull]⟩
    · have hmem : (0 : Nat) ∈ rest := by
        rcases List.mem_cons.mp h with h0 | h0
        · exact absurd h0.symm hc
        · exact h0
      obtain ⟨pre, post, he, hnp, ht⟩ := ih hmem
      refine ⟨c :: pre, post, by rw [he]; rfl, ?_, ?_⟩
      · intro hmem0
        rcases List.mem_cons.mp hmem0 with h0 | h0
        · exact hc h0.symm
        · exact hnp h0
      · simp [takeToNull, hc, ht]

/-- Claim C10: on a buffer whose remaining bytes contain a zero,
`read_null_terminated_string` returns the bytes up to and including the
first zero byte (so its length counts the terminator), and the cursor ends
just past that zero. -/
theorem claim10_read_null_terminated (b : BinaryBuffer)
    (h : (0 : Nat) ∈ b.data.drop b.pos) :
    ∃ pre post, b.data.drop b.pos = pre ++ 0 :: post ∧ (0 : Nat) ∉ pre ∧
      b.read_null_terminated_string =
        .ok (pre ++ [0], { b with pos := b.pos + (pre.length + 1) }) := by
  obtain ⟨pre, post, he, hnp, ht⟩ := takeToNull_spec _ h
  refine ⟨pre, post, he, hnp, ?_⟩
  unfold BinaryBuffer.read_null_terminated_string
  rw [ht]
  simp

/-- Witness for C10 at a concrete buffer. -/
theorem claim10_witness :
    (0 : Nat) ∈ (BinaryBuffer.mk [65, 66, 0, 9] [0, 4] 0).data.drop
      (BinaryBuffer.mk [65, 66, 0, 9] [0, 4] 0).pos ∧
    ∃ pre post,
      (BinaryBuffer.mk [65, 66, 0, 9] [0, 4] 0).data.drop
        (BinaryBuffer.mk [65, 66, 0, 9] [0, 4] 0).pos = pre ++ 0 :: post ∧
      (0 : Nat) ∉ pre ∧
      (BinaryBuffer.mk [65, 66, 0, 9] [0, 4] 0).read_null_terminated_string =
        .ok (pre ++ [0], { BinaryBuffer.mk [65, 66, 0, 9] [0, 4] 0 with
          pos := (BinaryBuffer.mk [65, 66, 0, 9] [0, 4] 0).pos + (pre.length + 1) }) :=
  ⟨by decide, claim10_read_null_terminated _ (by decide)⟩

/-- Claim C4: `read_fNBytes` reads a 32-bit big-endian value; it fails with
`invalidFraming` exactly when the `0x40000000` marker bit is absent, and on
success returns the value with that bit (bit 30) cleared and every other
bit unchanged. -/
theorem claim4_read_fNBytes (b : BinaryBuffer) (v : Nat) (b1 : BinaryBuffer)
    (h : b.readPrim 4 = .ok (v, b1)) :
    (v &&& kByteCountMask = 0 → b.read_fNBytes = .error .invalidFraming) ∧
    (v &&& kByteCountMask ≠ 0 →
      b.read_fNBytes = .ok (v &&& kByteCountMaskCompl, b1)) ∧
    (v < 2 ^ 32 → ∀ i : Nat,
      (v &&& kByteCountMaskCompl).testBit i = (v.testBit i && decide (i ≠ 30))) := by
  refine ⟨?_, ?_, ?_⟩
  · intro h0
    unfold BinaryBuffer.read_fNBytes
    simp only [bind, Except.bind]
    rw [h]
    simp [h0]
  · intro h0
    unfold BinaryBuffer.read_fNBytes
    simp only [bind, Except.bind]
    rw [h]
    simp [h0]
  · intro hv i
    rw [Nat.testBit_and]
    by_cases hi : i < 32
    · have hm : kByteCountMaskCompl.testBit i = decide (i ≠ 30) := by
        interval_cases i <;> decide
      rw [hm]
    · have h1 : v.testBit i = false := by
        apply Nat.testBit_lt_two_pow
        calc v < 2 ^ 32 := hv
          _ ≤ 2 ^ i := Nat.pow_le_pow_right (by omega) (by omega)
      have h2 : kByteCountMaskCompl.testBit i = false := by
        apply Nat.testBit_lt_two_pow
        calc kByteCountMaskCompl < 2 ^ 32 := by unfold kByteCountMaskCompl; omega
          _ ≤ 2 ^ i := Nat.pow_le_pow_right (by omega) (by omega)
      simp [h1, h2]

/-- Witness for C4: a marked byte count `0x40000006` decodes to 6, and an
unmarked one fails. -/
theorem claim4_witness :
    (BinaryBuffer.mk [0x40, 0, 0, 6] [0, 4] 0).readPrim 4 =
      .ok (0x40000006, BinaryBuffer.mk [0x40, 0, 0, 6] [0, 4] 4) ∧
    ((0x40000006 : Nat) &&& kByteCountMask ≠ 0 →
      (BinaryBuffer.mk [0x40, 0, 0, 6] [0, 4] 0).read_fNBytes =
        .ok ((0x40000006 : Nat) &&& kByteCountMaskCompl,
          BinaryBuffer.mk [0x40, 0, 0, 6] [0, 4] 4)) :=
  ⟨by decide,
   (claim4_read_fNBytes (BinaryBuffer.mk [0x40, 0, 0, 6] [0, 4] 0) 0x40000006
     (BinaryBuffer.mk [0x40, 0, 0, 6] [0, 4] 4) (by decide)).2.1⟩

/-- Claim C7: `TStringReader::read` consumes one length byte `fSize`; a
value of 255 escapes to a 32-bit big-endian length; exactly `fSize` bytes
are then appended to the data vector and the new total is pushed onto the
offsets vector. -/
theorem claim7_tstring_read (st : StrColumn) (b b1 : BinaryBuffer) (sz0 : Nat)
    (h : b.readByte = .ok (sz0, b1)) :
    (sz0 ≠ 255 → ∀ bytes b2, b1.readN sz0 = .ok (bytes, b2) →
      TStringReader.read st b =
        .ok (⟨st.data ++ bytes, st.offsets ++ [st.data.length + sz0]⟩, b2) ∧
      bytes.length = sz0 ∧ b2.pos = b.pos + 1 + sz0) ∧
    (sz0 = 255 → ∀ m b2 bytes b3, b1.readPrim 4 = .ok (m, b2) →
      b2.readN m = .ok (bytes, b3) →
      TStringReader.read st b =
        .ok (⟨st.data ++ bytes, st.offsets ++ [st.data.length + m]⟩, b3) ∧
      bytes.length = m ∧ b3.pos = b.pos + 1 + 4 + m) := by
  obtain ⟨hb, hb1⟩ := readByte_ok h
  constructor
  · intro hne bytes b2 hN
    obtain ⟨hbytes, hlen, hb2, _⟩ := readN_ok _ _ _ _ hN
    refine ⟨?_, hlen, ?_⟩
    · unfold TStringReader.read
      simp only [bind, Except.bind, h, if_neg hne, hN]
      simp [hlen]
    · rw [hb2, hb1]
  · intro heq m b2 bytes b3 hm hN
    subst heq
    obtain ⟨_, _, _, hbm⟩ := readPrim_ok hm
    obtain ⟨hbytes, hlen, hb3, _⟩ := readN_ok _ _ _ _ hN
    refine ⟨?_, hlen, ?_⟩
    · unfold TStringReader.read
      simp only [bind, Except.bind, h, hm, hN, if_pos]
      simp [hlen]
    · rw [hb3, hbm, hb1]

set_option maxRecDepth 40000 in
/-- Witness for C7: length 254 takes the one-byte path and length 256 the
255-escape path, both decoded exactly. -/
theorem claim7_witness :
    (TStringReader.read StrColumn.init
        (BinaryBuffer.mk (254 :: List.replicate 254 7) [0, 255] 0) =
      .ok (⟨StrColumn.init.data ++ List.replicate 254 7,
            StrColumn.init.offsets ++ [StrColumn.init.data.length + 254]⟩,
           BinaryBuffer.mk (254 :: List.replicate 254 7) [0, 255] 255) ∧
     (List.replicate 254 (7 : Nat)).length = 254 ∧ (255 : Nat) = 0 + 1 + 254) ∧
    (TStringReader.read StrColumn.init
        (BinaryBuffer.mk (255 :: 0 :: 0 :: 1 :: 0 :: List.replicate 256 9) [0, 261] 0) =
      .ok (⟨StrColumn.init.data ++ List.replicate 256 9,
            StrColumn.init.offsets ++ [StrColumn.init.data.length + 256]⟩,
           BinaryBuffer.mk (255 :: 0 :: 0 :: 1 :: 0 :: List.replicate 256 9) [0, 261] 261) ∧
     (List.replicate 256 (9 : Nat)).length = 256 ∧ (261 : Nat) = 0 + 1 + 4 + 256) :=
  ⟨(claim7_tstring_read StrColumn.init
      (BinaryBuffer.mk (254 :: List.replicate 254 7) [0, 255] 0)
      (BinaryBuffer.mk (254 :: List.replicate 254 7) [0, 255] 1) 254
      (by decide)).1 (by decide) (List.replicate 254 7)
      (BinaryBuffer.mk (254 :: List.replicate 254 7) [0, 255] 255) (by decide),
   (claim7_tstring_read StrColumn.init
      (BinaryBuffer.mk (255 :: 0 :: 0 :: 1 :: 0 :: List.replicate 256 9) [0, 261] 0)
      (BinaryBuffer.mk (255 :: 0 :: 0 :: 1 :: 0 :: List.replicate 256 9) [0, 261] 1) 255
      (by decide)).2 rfl 256
      (BinaryBuffer.mk (255 :: 0 :: 0 :: 1 :: 0 :: List.replicate 256 9) [0, 261] 5)
      (List.replicate 256 9)
      (BinaryBuffer.mk (255 :: 0 :: 0 :: 1 :: 0 :: List.replicate 256 9) [0, 261] 261)
      (by decide) (by decide)⟩

theorem stlseq_read_eq {σ : Type} (child : ChildRead σ) (wh : Bool) (s : σ)
    (offs : List Nat) (b b1 b2 : BinaryBuffer) (fSize : Nat)
    (h1 : readSTLHeader wh b = .ok b1) (h2 : b1.readPrim 4 = .ok (fSize, b2)) :
    STLSeqReader.read wh child (s, offs) b =
      (childIter child fSize s b2).map
        (fun q => ((q.1, offs ++ [offs.getLastD 0 + fSize]), q.2)) := by
  unfold STLSeqReader.read
  simp only [bind, Except.bind, h1, h2]
  cases hc : childIter child fSize s b2 with
  | error e => simp [Except.map]
  | ok q => simp [Except.map]

theorem childIter_count {σ : Type} (child : ChildRead σ) :
    ∀ (n : Nat) (s : σ) (k : Nat) (b : BinaryBuffer) (p : σ × Nat) (b1 : BinaryBuffer),
    childIter (countingChild child) n (s, k) b = .ok (p, b1) → p.2 = k + n := by
  intro n
  induction n with
  | zero =>
    intro s k b p b1 h
    unfold childIter at h
    cases h
    rfl
  | succ n ih =>
    intro s k b p b1 h
    unfold childIter at h
    simp only [bind, Except.bind] at h
    cases hc : countingChild child (s, k) b with
    | error e => rw [hc] at h; cases h
    | ok q =>
      rw [hc] at h
      simp only at h
      obtain ⟨⟨s1, k1⟩, bq⟩ := q
      have hk1 : k1 = k + 1 := by
        unfold countingChild at hc
        cases hx : child s b with
        | error e => rw [hx] at hc; cases hc
        | ok r => rw [hx] at hc; simp [Except.map] at hc; exact hc.1.2.symm
      subst hk1
      have := ih s1 (k + 1) bq p b1 h
      omega

/-- Claim C8: `STLSeqReader::read` consumes the optional header exactly
when `with_header` is set, reads a 32-bit `fSize`, appends
`offsets.back() + fSize` to the offsets vector, and invokes the element
reader exactly `fSize` times; with `fSize = 0` the offsets vector grows by
a zero-delta entry and the element reader is never invoked. -/
theorem claim8_stlseq_read (σ : Type) (child : ChildRead σ) (wh : Bool)
    (s : σ) (offs : List Nat) (b b1 b2 : BinaryBuffer) (fSize : Nat)
    (h1 : readSTLHeader wh b = .ok b1)
    (h2 : b1.readPrim 4 = .ok (fSize, b2)) :
    (STLSeqReader.read wh child (s, offs) b =
      (childIter child fSize s b2).map
        (fun q => ((q.1, offs ++ [offs.getLastD 0 + fSize]), q.2))) ∧
    (fSize = 0 →
      STLSeqReader.read wh child (s, offs) b =
        .ok ((s, offs ++ [offs.getLastD 0]), b2)) ∧
    (∀ (k : Nat) (p : (σ × Nat) × List Nat) (b3 : BinaryBuffer),
      STLSeqReader.read wh (countingChild child) ((s, k), offs) b = .ok (p, b3) →
      p.1.2 = k + fSize) := by
  refine ⟨stlseq_read_eq child wh s offs b b1 b2 fSize h1 h2, ?_, ?_⟩
  · intro h0
    subst h0
    rw [stlseq_read_eq child wh s offs b b1 b2 0 h1 h2]
    simp [childIter, Except.map]
  · intro k p b3 hread
    rw [stlseq_read_eq (countingChild child) wh (s, k) offs b b1 b2 fSize h1 h2] at hread
    cases hc : childIter (countingChild child) fSize (s, k) b2 with
    | error e => rw [hc] at hread; cases hread
    | ok q =>
      rw [hc] at hread
      simp only [Except.map] at hread
      cases hread
      exact childIter_count child fSize s k b2 q.1 q.2 (by rw [← hc])

/-- Witness for C8: a two-element `vector<int32>` event and an empty
(`fSize = 0`) event. -/
theorem claim8_witness :
    (STLSeqReader.read false (BasicTypeReader.readI 4) (([] : List Int), [0])
        (BinaryBuffer.mk [0, 0, 0, 2, 0, 0, 0, 7, 0, 0, 0, 8] [0, 12] 0) =
      (childIter (BasicTypeReader.readI 4) 2 []
          (BinaryBuffer.mk [0, 0, 0, 2, 0, 0, 0, 7, 0, 0, 0, 8] [0, 12] 4)).map
        (fun q => ((q.1, [0] ++ [([0] : List Nat).getLastD 0 + 2]), q.2))) ∧
    (STLSeqReader.read false (BasicTypeReader.readI 4) (([] : List Int), [0])
        (BinaryBuffer.mk [0, 0, 0, 0] [0, 4] 0) =
      .ok (([], [0] ++ [([0] : List Nat).getLastD 0]),
           BinaryBuffer.mk [0, 0, 0, 0] [0, 4] 4)) :=
  ⟨(claim8_stlseq_read (List Int) (BasicTypeReader.readI 4) false [] [0]
      (BinaryBuffer.mk [0, 0, 0, 2, 0, 0, 0, 7, 0, 0, 0, 8] [0, 12] 0)
      (BinaryBuffer.mk [0, 0, 0, 2, 0, 0, 0, 7, 0, 0, 0, 8] [0, 12] 0)
      (BinaryBuffer.mk [0, 0, 0, 2, 0, 0, 0, 7, 0, 0, 0, 8] [0, 12] 4) 2
      (by decide) (by decide)).1,
   (claim8_stlseq_read (List Int) (BasicTypeReader.readI 4) false [] [0]
      (BinaryBuffer.mk [0, 0, 0, 0] [0, 4] 0)
      (BinaryBuffer.mk [0, 0, 0, 0] [0, 4] 0)
      (BinaryBuffer.mk [0, 0, 0, 0] [0, 4] 4) 0
      (by decide) (by decide)).2.1 rfl⟩

theorem snoc_offsets {offs : List Nat} {x : Nat} (h1 : offs.head? = some 0)
    (h2 : List.Chain' (· ≤ ·) offs) (hx : offs.getLastD 0 ≤ x) :
    (offs ++ [x]).head? = some 0 ∧ List.Chain' (· ≤ ·) (offs ++ [x]) ∧
    (offs ++ [x]).getLastD 0 = x := by
  have hne : offs ≠ [] := by
    intro he; subst he; simp at h1
  obtain ⟨last, hlast⟩ : ∃ a, offs.getLast? = some a :=
    Option.isSome_iff_exists.mp (List.getLast?_isSome.mpr hne)
  have hlastD : offs.getLastD 0 = last := by
    rw [List.getLastD_eq_getLast?, hlast]; rfl
  refine ⟨?_, ?_, ?_⟩
  · rw [List.head?_append, h1]; rfl
  · rw [List.chain'_append]
    refine ⟨h2, List.chain'_singleton x, ?_⟩
    intro a ha y hy
    rw [hlast] at ha
    simp at ha hy
    subst ha; subst hy
    rw [← hlastD]; exact hx
  · rw [List.getLastD_eq_getLast?, List.getLast?_concat]; rfl

theorem childIter_inv {σ : Type} (child : ChildRead σ) (P : σ → Prop)
    (hp : ∀ s b s1 b1, P s → child s b = .ok (s1, b1) → P s1) :
    ∀ (n : Nat) (s : σ) (b : BinaryBuffer) (s1 : σ) (b1 : BinaryBuffer),
      P s → childIter child n s b = .ok (s1, b1) → P s1 := by
  intro n
  induction n with
  | zero =>
    intro s b s1 b1 hP h
    unfold childIter at h
    cases h
    exact hP
  | succ n ih =>
    intro s b s1 b1 hP h
    unfold childIter at h
    simp only [bind, Except.bind] at h
    cases hc : child s b with
    | error e => rw [hc] at h; cases h
    | ok q =>
      rw [hc] at h
      simp only at h
      exact ih q.1 q.2 s1 b1 (hp s b q.1 q.2 hP (by rw [hc])) h

theorem childIter_len {σ : Type} (child : ChildRead σ) (len : σ → Nat)
    (hp : ∀ s b s1 b1, child s b = .ok (s1, b1) → len s1 = len s + 1) :
    ∀ (n : Nat) (s : σ) (b : BinaryBuffer) (s1 : σ) (b1 : BinaryBuffer),
      childIter child n s b = .ok (s1, b1) → len s1 = len s + n := by
  intro n
  induction n with
  | zero =>
    intro s b s1 b1 h
    unfold childIter at h
    cases h
    rfl
  | succ n ih =>
    intro s b s1 b1 h
    unfold childIter at h
    simp only [bind, Except.bind] at h
    cases hc : child s b with
    | error e => rw [hc] at h; cases h
    | ok q =>
      rw [hc] at h
      simp only at h
      have h1 := hp s b q.1 q.2 (by rw [hc])
      have h2 := ih q.1 q.2 s1 b1 h
      omega

theorem readElems_len : ∀ (n w : Nat) (b : BinaryBuffer) (es : List Nat) (b1 : BinaryBuffer),
    b.readElems w n = .ok (es, b1) → es.length = n := by
  intro n
  induction n with
  | zero =>
    intro w b es b1 h
    unfold BinaryBuffer.readElems at h
    cases h
    rfl
  | succ n ih =>
    intro w b es b1 h
    unfold BinaryBuffer.readElems at h
    simp only [bind, Except.bind] at h
    cases hx : b.readPrim w with
    | error e => rw [hx] at h; cases h
    | ok p =>
      rw [hx] at h
      simp only at h
      cases hy : p.2.readElems w n with
      | error e => rw [hy] at h; cases h
      | ok q =>
        rw [hy] at h
        simp only at h
        cases h
        simp [ih w p.2 q.1 q.2 hy]

theorem tstring_read_shape {st : StrColumn} {b : BinaryBuffer} {st1 : StrColumn}
    {b1 : BinaryBuffer} (h : TStringReader.read st b = .ok (st1, b1)) :
    ∃ bytes, st1.data = st.data ++ bytes ∧
      st1.offsets = st.offsets ++ [st1.data.length] := by
  unfold TStringReader.read at h
  simp only [bind, Except.bind] at h
  cases hx : b.readByte with
  | error e => rw [hx] at h; cases h
  | ok p =>
    obtain ⟨sz0, b'⟩ := p
    rw [hx] at h
    simp only at h
    split at h
    · cases hm : b'.readPrim 4 with
      | error e => rw [hm] at h; cases h
      | ok q =>
        rw [hm] at h
        simp only at h
        cases hn : q.2.readN q.1 with
        | error e => rw [hn] at h; cases h
        | ok r =>
          rw [hn] at h
          simp only at h
          cases h
          exact ⟨r.1, rfl, rfl⟩
    ·
      cases hn : b'.readN sz0 with
      | error e => rw [hn] at h; cases h
      | ok r =>
        rw [hn] at h
        simp only at h
        cases h
        exact ⟨r.1, rfl, rfl⟩

theorem stlstring_read_shape {wh : Bool} {st st1 : StrColumn} {b b1 : BinaryBuffer}
    (h : STLStringReader.read wh st b = .ok (st1, b1)) :
    ∃ bytes fSize, bytes.length = fSize ∧ st1.data = st.data ++ bytes ∧
      st1.offsets = st.offsets ++ [st.offsets.getLastD 0 + fSize] := by
  unfold STLStringReader.read at h
  simp only [bind, Except.bind] at h
  cases hh : readSTLHeader wh b with
  | error e => rw [hh] at h; cases h
  | ok bh =>
    rw [hh] at h
    simp only at h
    cases hx : bh.readByte with
    | error e => rw [hx] at h; cases h
    | ok p =>
      obtain ⟨sz0, b'⟩ := p
      rw [hx] at h
      simp only at h
      split at h
      · cases hm : b'.readPrim 4 with
        | error e => rw [hm] at h; cases h
        | ok q =>
          rw [hm] at h
          simp only at h
          cases hn : q.2.readN q.1 with
          | error e => rw [hn] at h; cases h
          | ok r =>
            rw [hn] at h
            simp only at h
            cases h
            obtain ⟨_, hlen, _, _⟩ := readN_ok _ _ _ _ hn
            exact ⟨r.1, q.1, hlen, rfl, rfl⟩
      ·
        cases hn : b'.readN sz0 with
        | error e => rw [hn] at h; cases h
        | ok r =>
          rw [hn] at h
          simp only at h
          cases h
          obtain ⟨_, hlen, _, _⟩ := readN_ok _ _ _ _ hn
          exact ⟨r.1, sz0, hlen, rfl, rfl⟩

theorem tarray_read_shape {w : Nat} {st st1 : ArrColumn} {b b1 : BinaryBuffer}
    (h : TArrayReader.read w st b = .ok (st1, b1)) :
    ∃ es fSize, es.length = fSize ∧ st1.data = st.data ++ es ∧
      st1.offsets = st.offsets ++ [st.offsets.getLastD 0 + fSize] := by
  unfold TArrayReader.read at h
  simp only [bind, Except.bind] at h
  cases hx : b.readPrim 4 with
  | error e => rw [hx] at h; cases h
  | ok p =>
    rw [hx] at h
    simp only at h
    cases hy : p.2.readElems w p.1 with
    | error e => rw [hy] at h; cases h
    | ok q =>
      rw [hy] at h
      simp only at h
      cases h
      exact ⟨q.1, p.1, readElems_len _ _ _ _ _ hy, rfl, rfl⟩

theorem stlseq_read_shape {σ : Type} {wh : Bool} {child : ChildRead σ}
    {p q : σ × List Nat} {b b1 : BinaryBuffer}
    (h : STLSeqReader.read wh child p b = .ok (q, b1)) :
    ∃ fSize, q.2 = p.2 ++ [p.2.getLastD 0 + fSize] := by
  unfold STLSeqReader.read at h
  simp only [bind, Except.bind] at h
  cases hh : readSTLHeader wh b with
  | error e => rw [hh] at h; cases h
  | ok bh =>
    rw [hh] at h
    simp only at h
    cases hx : bh.readPrim 4 with
    | error e => rw [hx] at h; cases h
    | ok r =>
      rw [hx] at h
      simp only at h
      cases hc : childIter child r.1 p.1 r.2 with
      | error e => rw [hc] at h; cases h
      | ok s1 =>
        rw [hc] at h
        simp only at h
        cases h
        exact ⟨r.1, rfl⟩

theorem stlmap_read_shape {σ τ : Type} {wh : Bool} {keyR : ChildRead σ}
    {valR : ChildRead τ} {p q : (σ × τ) × List Nat} {b b1 : BinaryBuffer}
    (h : STLMapReader.read wh keyR valR p b = .ok (q, b1)) :
    ∃ fSize, q.2 = p.2 ++ [p.2.getLastD 0 + fSize] := by
  unfold STLMapReader.read at h
  simp only [bind, Except.bind] at h
  cases hh : readSTLHeader wh b with
  | error e => rw [hh] at h; cases h
  | ok bh =>
    rw [hh] at h
    simp only at h
    cases hx : bh.readPrim 4 with
    | error e => rw [hx] at h; cases h
    | ok r =>
      rw [hx] at h
      simp only at h
      cases hc : childIter (STLMapReader.pairRead keyR valR) r.1 p.1 r.2 with
      | error e => rw [hc] at h; cases h
      | ok s1 =>
        rw [hc] at h
        simp only at h
        cases h
        exact ⟨r.1, rfl⟩

theorem cstyle_dyn_read_shape {σ : Type} {flatSize : Int} {cc : Int → ChildRead σ}
    {child : ChildRead σ} {p q : σ × List Nat} {b b1 : BinaryBuffer}
    (hfs : flatSize ≤ 0)
    (h : CStyleArrayReader.read flatSize cc child p b = .ok (q, b1)) :
    ∃ count, q.2 = p.2 ++ [p.2.getLastD 0 + count] := by
  unfold CStyleArrayReader.read at h
  rw [if_neg (by omega)] at h
  unfold CStyleArrayReader.readDyn at h
  cases hf : b.offsets.find? (fun off => decide (b.pos < off)) with
  | none => rw [hf] at h; cases h
  | some endPos =>
    rw [hf] at h
    simp only [bind, Except.bind] at h
    cases hr : readUntilEnd child endPos 0 p.1 b with
    | error e => rw [hr] at h; cases h
    | ok r =>
      rw [hr] at h
      simp only at h
      cases h
      exact ⟨r.1, rfl⟩

/-- Claim C5: for every offsets-owning reader (TArray, TString, STLSeq,
STLMap, STLString, dynamic CArray) and every sequence of successful reads
from the freshly-constructed state, the offsets vector starts with 0 and
is monotonically non-decreasing, has length N+1 after N occurrences, and
the variable-length data vectors of TString/TArray/STLString have length
exactly `offsets[N]` (the last entry); a fixed-per-occurrence vector
(a basic reader's) has length exactly N. -/
theorem claim5_offsets_invariants :
    (∀ (n : Nat) (b : BinaryBuffer) (st1 : StrColumn) (b1 : BinaryBuffer),
      childIter TStringReader.read n StrColumn.init b = .ok (st1, b1) →
      st1.offsets.head? = some 0 ∧ List.Chain' (· ≤ ·) st1.offsets ∧
      st1.offsets.length = n + 1 ∧ st1.data.length = st1.offsets.getLastD 0) ∧
    (∀ (w n : Nat) (b : BinaryBuffer) (st1 : ArrColumn) (b1 : BinaryBuffer),
      childIter (TArrayReader.read w) n ArrColumn.init b = .ok (st1, b1) →
      st1.offsets.head? = some 0 ∧ List.Chain' (· ≤ ·) st1.offsets ∧
      st1.offsets.length = n + 1 ∧ st1.data.length = st1.offsets.getLastD 0) ∧
    (∀ (wh : Bool) (n : Nat) (b : BinaryBuffer) (st1 : StrColumn) (b1 : BinaryBuffer),
      childIter (STLStringReader.read wh) n StrColumn.init b = .ok (st1, b1) →
      st1.offsets.head? = some 0 ∧ List.Chain' (· ≤ ·) st1.offsets ∧
      st1.offsets.length = n + 1 ∧ st1.data.length = st1.offsets.getLastD 0) ∧
    (∀ (σ : Type) (child : ChildRead σ) (wh : Bool) (n : Nat) (b : BinaryBuffer)
      (s0 : σ) (q : σ × List Nat) (b1 : BinaryBuffer),
      childIter (STLSeqReader.read wh child) n (s0, [0]) b = .ok (q, b1) →
      q.2.head? = some 0 ∧ List.Chain' (· ≤ ·) q.2 ∧ q.2.length = n + 1) ∧
    (∀ (σ τ : Type) (keyR : ChildRead σ) (valR : ChildRead τ) (wh : Bool)
      (n : Nat) (b : BinaryBuffer) (k0 : σ) (v0 : τ)
      (q : (σ × τ) × List Nat) (b1 : BinaryBuffer),
      childIter (STLMapReader.read wh keyR valR) n ((k0, v0), [0]) b = .ok (q, b1) →
      q.2.head? = some 0 ∧ List.Chain' (· ≤ ·) q.2 ∧ q.2.length = n + 1) ∧
    (∀ (σ : Type) (cc : Int → ChildRead σ) (child : ChildRead σ) (flatSize : Int),
      flatSize ≤ 0 →
      ∀ (n : Nat) (b : BinaryBuffer) (s0 : σ) (q : σ × List Nat) (b1 : BinaryBuffer),
      childIter (CStyleArrayReader.read flatSize cc child) n (s0, [0]) b = .ok (q, b1) →
      q.2.head? = some 0 ∧ List.Chain' (· ≤ ·) q.2 ∧ q.2.length = n + 1) ∧
    (∀ (w n : Nat) (b : BinaryBuffer) (st1 : List Nat) (b1 : BinaryBuffer),
      childIter (BasicTypeReader.readU w) n [] b = .ok (st1, b1) →
      st1.length = n) := by
  refine ⟨?_, ?_, ?_, ?_, ?_, ?_, ?_⟩
  · intro n b st1 b1 h
    have hP := childIter_inv TStringReader.read
      (fun st => st.offsets.head? = some 0 ∧ List.Chain' (· ≤ ·) st.offsets ∧
        st.data.length = st.offsets.getLastD 0)
      (by
        intro s bb s1 bb1 hPs hr
        obtain ⟨bytes, hd, ho⟩ := tstring_read_shape hr
        obtain ⟨hh, hc, hl⟩ := hPs
        have hx : s.offsets.getLastD 0 ≤ s1.data.length := by
          rw [hd, List.length_append]; omega
        obtain ⟨h1, h2, h3⟩ := snoc_offsets hh hc hx
        rw [ho]
        exact ⟨h1, h2, by rw [h3]⟩)
      n StrColumn.init b st1 b1 ⟨rfl, List.chain'_singleton 0, rfl⟩ h
    have hL := childIter_len TStringReader.read (fun st => st.offsets.length)
      (by
        intro s bb s1 bb1 hr
        obtain ⟨bytes, hd, ho⟩ := tstring_read_shape hr
        simp [ho])
      n StrColumn.init b st1 b1 h
    simp only at hP
    simp [StrColumn.init] at hL
    exact ⟨hP.1, hP.2.1, by omega, hP.2.2⟩
  · intro w n b st1 b1 h
    have hP := childIter_inv (TArrayReader.read w)
      (fun st => st.offsets.head? = some 0 ∧ List.Chain' (· ≤ ·) st.offsets ∧
        st.data.length = st.offsets.getLastD 0)
      (by
        intro s bb s1 bb1 hPs hr
        obtain ⟨es, fSize, hlen, hd, ho⟩ := tarray_read_shape hr
        obtain ⟨hh, hc, hl⟩ := hPs
        obtain ⟨h1, h2, h3⟩ := snoc_offsets hh hc
          (Nat.le_add_right (s.offsets.getLastD 0) fSize)
        rw [ho]
        refine ⟨h1, h2, ?_⟩
        rw [h3, hd, List.length_append, hlen, hl])
      n ArrColumn.init b st1 b1 ⟨rfl, List.chain'_singleton 0, rfl⟩ h
    have hL := childIter_len (TArrayReader.read w) (fun st => st.offsets.length)
      (by
        intro s bb s1 bb1 hr
        obtain ⟨es, fSize, hlen, hd, ho⟩ := tarray_read_shape hr
        simp [ho])
      n ArrColumn.init b st1 b1 h
    simp only at hP
    simp [ArrColumn.init] at hL
    exact ⟨hP.1, hP.2.1, by omega, hP.2.2⟩
  · intro wh n b st1 b1 h
    have hP := childIter_inv (STLStringReader.read wh)
      (fun st => st.offsets.head? = some 0 ∧ List.Chain' (· ≤ ·) st.offsets ∧
        st.data.length = st.offsets.getLastD 0)
      (by
        intro s bb s1 bb1 hPs hr
        obtain ⟨bytes, fSize, hlen, hd, ho⟩ := stlstring_read_shape hr
        obtain ⟨hh, hc, hl⟩ := hPs
        obtain ⟨h1, h2, h3⟩ := snoc_offsets hh hc
          (Nat.le_add_right (s.offsets.getLastD 0) fSize)
        rw [ho]
        refine ⟨h1, h2, ?_⟩
        rw [h3, hd, List.length_append, hlen, hl])
      n StrColumn.init b st1 b1 ⟨rfl, List.chain'_singleton 0, rfl⟩ h
    have hL := childIter_len (STLStringReader.read wh) (fun st => st.offsets.length)
      (by
        intro s bb s1 bb1 hr
        obtain ⟨bytes, fSize, hlen, hd, ho⟩ := stlstring_read_shape hr
        simp [ho])
      n StrColumn.init b st1 b1 h
    simp only at hP
    simp [StrColumn.init] at hL
    exact ⟨hP.1, hP.2.1, by omega, hP.2.2⟩
  · intro σ child wh n b s0 q b1 h
    have hP := childIter_inv (STLSeqReader.read wh child)
      (fun p => p.2.head? = some 0 ∧ List.Chain' (· ≤ ·) p.2)
      (by
        intro s bb s1 bb1 hPs hr
        obtain ⟨fSize, ho⟩ := stlseq_read_shape hr
        obtain ⟨hh, hc⟩ := hPs
        obtain ⟨h1, h2, _⟩ := snoc_offsets hh hc
          (Nat.le_add_right (s.2.getLastD 0) fSize)
        rw [ho]
        exact ⟨h1, h2⟩)
      n (s0, [0]) b q b1 ⟨rfl, List.chain'_singleton 0⟩ h
    have hL := childIter_len (STLSeqReader.read wh child) (fun p => p.2.length)
      (by
        intro s bb s1 bb1 hr
        obtain ⟨fSize, ho⟩ := stlseq_read_shape hr
        simp [ho])
      n (s0, [0]) b q b1 h
    simp only at hP
    simp at hL
    exact ⟨hP.1, hP.2, by omega⟩
  · intro σ τ keyR valR wh n b k0 v0 q b1 h
    have hP := childIter_inv (STLMapReader.read wh keyR valR)
      (fun p => p.2.head? = some 0 ∧ List.Chain' (· ≤ ·) p.2)
      (by
        intro s bb s1 bb1 hPs hr
        obtain ⟨fSize, ho⟩ := stlmap_read_shape hr
        obtain ⟨hh, hc⟩ := hPs
        obtain ⟨h1, h2, _⟩ := snoc_offsets hh hc
          (Nat.le_add_right (s.2.getLastD 0) fSize)
        rw [ho]
        exact ⟨h1, h2⟩)
      n ((k0, v0), [0]) b q b1 ⟨rfl, List.chain'_singleton 0⟩ h
    have hL := childIter_len (STLMapReader.read wh keyR valR) (fun p => p.2.length)
      (by
        intro s bb s1 bb1 hr
        obtain ⟨fSize, ho⟩ := stlmap_read_shape hr
        simp [ho])
      n ((k0, v0), [0]) b q b1 h
    simp only at hP
    simp at hL
    exact ⟨hP.1, hP.2, by omega⟩
  · intro σ cc child flatSize hfs n b s0 q b1 h
    have hP := childIter_inv (CStyleArrayReader.read flatSize cc child)
      (fun p => p.2.head? = some 0 ∧ List.Chain' (· ≤ ·) p.2)
      (by
        intro s bb s1 bb1 hPs hr
        obtain ⟨count, ho⟩ := cstyle_dyn_read_shape hfs hr
        obtain ⟨hh, hc⟩ := hPs
        obtain ⟨h1, h2, _⟩ := snoc_offsets hh hc
          (Nat.le_add_right (s.2.getLastD 0) count)
        rw [ho]
        exact ⟨h1, h2⟩)
      n (s0, [0]) b q b1 ⟨rfl, List.chain'_singleton 0⟩ h
    have hL := childIter_len (CStyleArrayReader.read flatSize cc child)
      (fun p => p.2.length)
      (by
        intro s bb s1 bb1 hr
        obtain ⟨count, ho⟩ := cstyle_dyn_read_shape hfs hr
        simp [ho])
      n (s0, [0]) b q b1 h
    simp only at hP
    simp at hL
    exact ⟨hP.1, hP.2, by omega⟩
  · intro w n b st1 b1 h
    have hL := childIter_len (BasicTypeReader.readU w) (fun st => st.length)
      (by
        intro s bb s1 bb1 hr
        unfold BasicTypeReader.readU at hr
        simp only [bind, Except.bind] at hr
        cases hx : bb.readPrim w with
        | error e => rw [hx] at hr; cases hr
        | ok p =>
          rw [hx] at hr
          simp only at hr
          cases hr
          simp)
      n [] b st1 b1 h
    simpa using hL

/-- Witness for C5: one TString read and two byte-reader reads on concrete
buffers. -/
theorem claim5_witness :
    ((StrColumn.mk [97, 98, 99] [0, 3]).offsets.head? = some 0 ∧
     List.Chain' (· ≤ ·) (StrColumn.mk [97, 98, 99] [0, 3]).offsets ∧
     (StrColumn.mk [97, 98, 99] [0, 3]).offsets.length = 1 + 1 ∧
     (StrColumn.mk [97, 98, 99] [0, 3]).data.length =
       (StrColumn.mk [97, 98, 99] [0, 3]).offsets.getLastD 0) ∧
    ([7, 8] : List Nat).length = 2 :=
  ⟨claim5_offsets_invariants.1 1 (BinaryBuffer.mk [3, 97, 98, 99, 0] [0, 4, 5] 0)
      (StrColumn.mk [97, 98, 99] [0, 3]) (BinaryBuffer.mk [3, 97, 98, 99, 0] [0, 4, 5] 4)
      (by decide),
   claim5_offsets_invariants.2.2.2.2.2.2 1 2 (BinaryBuffer.mk [7, 8] [0, 2] 0)
      [7, 8] (BinaryBuffer.mk [7, 8] [0, 2] 2) (by decide)⟩

/-- Claim C9: a primitive read of a supported width consumes exactly
`sizeof(T)` bytes at the cursor, advances the cursor by that width, and
returns the big-endian value of those bytes; consequently decoding the
two-event blob `00 00 00 2A 00 00 00 FF` with offsets `[0,4,8]` through an
`Int32Reader` yields `[42, 255]`. -/
theorem claim9_primitive_read :
    (∀ (w : Nat) (b : BinaryBuffer) (v : Nat) (b1 : BinaryBuffer),
      b.readPrim w = .ok (v, b1) →
      (w = 1 ∨ w = 2 ∨ w = 4 ∨ w = 8) ∧
      v = beVal ((b.data.drop b.pos).take w) ∧
      b1.pos = b.pos + w ∧ b1.data = b.data ∧ b1.offsets = b.offsets) ∧
    py_read_data (BasicTypeReader.readI 4) id "x"
      [0, 0, 0, 0x2A, 0, 0, 0, 0xFF] [0, 4, 8] [] = .ok [42, 255] := by
  constructor
  · intro w b v b1 h
    obtain ⟨hw, _, hv, hb1⟩ := readPrim_ok h
    subst hb1
    exact ⟨hw, hv, rfl, rfl, rfl⟩
  · decide

/-- Witness for C9 at width 4 on a concrete buffer. -/
theorem claim9_witness :
    ((4 : Nat) = 1 ∨ (4 : Nat) = 2 ∨ (4 : Nat) = 4 ∨ (4 : Nat) = 8) ∧
    (42 : Nat) = beVal ((([0, 0, 0, 42, 9] : List Nat).drop 0).take 4) ∧
    (BinaryBuffer.mk [0, 0, 0, 42, 9] [0, 5] 4).pos =
      (BinaryBuffer.mk [0, 0, 0, 42, 9] [0, 5] 0).pos + 4 ∧
    (BinaryBuffer.mk [0, 0, 0, 42, 9] [0, 5] 4).data =
      (BinaryBuffer.mk [0, 0, 0, 42, 9] [0, 5] 0).data ∧
    (BinaryBuffer.mk [0, 0, 0, 42, 9] [0, 5] 4).offsets =
      (BinaryBuffer.mk [0, 0, 0, 42, 9] [0, 5] 0).offsets :=
  claim9_primitive_read.1 4 (BinaryBuffer.mk [0, 0, 0, 42, 9] [0, 5] 0) 42
    (BinaryBuffer.mk [0, 0, 0, 42, 9] [0, 5] 4) (by decide)

theorem read_fNBytes_le {b : BinaryBuffer} {K : Nat} {b1 : BinaryBuffer}
    (h : b.read_fNBytes = .ok (K, b1)) : K ≤ kByteCountMaskCompl := by
  unfold BinaryBuffer.read_fNBytes at h
  simp only [bind, Except.bind] at h
  cases hx : b.readPrim 4 with
  | error e => rw [hx] at h; cases h
  | ok p =>
    rw [hx] at h
    simp only at h
    split at h
    · cases h
    · cases h
      exact Nat.and_le_right

/-- Claim C2 (code bug): the canonical `NBytesVersionReader::read` computes
`end_pos = start_pos + fNBytes - 2` and then checks
`end_pos - start_pos != fNBytes - 2`, which is identically false whenever
`fNBytes ≥ 2`, so the framing check can never fire: a child that consumes
the wrong number of bytes still succeeds.  The first conjunct evaluates the
reader on a concrete event whose child consumes 1 byte instead of the
declared 4 and observes success with the cursor far from the expected end;
the second proves the check vacuous for every child and every input with
`fNBytes ≥ 2`. -/
theorem claim2_nbytesversion_check_vacuous :
    (NBytesVersionReader.read "elem" (BasicTypeReader.readU 1) []
        (BinaryBuffer.mk [0x40, 0, 0, 6, 0, 1, 0xAA, 0, 0, 0] [0, 10] 0) =
      .ok ([0xAA], BinaryBuffer.mk [0x40, 0, 0, 6, 0, 1, 0xAA, 0, 0, 0] [0, 10] 7) ∧
     (7 : Nat) ≠ 6 + (6 - 2)) ∧
    (∀ (σ : Type) (child : ChildRead σ) (nm : String) (s : σ) (b : BinaryBuffer)
      (K : Nat) (b1 : BinaryBuffer) (ver : Int) (b2 : BinaryBuffer)
      (s1 : σ) (b3 : BinaryBuffer),
      b.read_fNBytes = .ok (K, b1) → 2 ≤ K →
      b1.read_fVersion = .ok (ver, b2) →
      child s b2 = .ok (s1, b3) →
      NBytesVersionReader.read nm child s b = .ok (s1, b3)) := by
  constructor
  · exact ⟨by decide, by decide⟩
  · intro σ child nm s b K b1 ver b2 s1 b3 h1 hK h2 h3
    have hle : K ≤ kByteCountMaskCompl := read_fNBytes_le h1
    have hK2 : ((K : Int) - 2) % 2 ^ 32 = (K : Int) - 2 := by
      have hc : (K : Int) ≤ (kByteCountMaskCompl : Int) := by exact_mod_cast hle
      unfold kByteCountMaskCompl at hc
      have hpow : (2 : Int) ^ 32 = 4294967296 := by norm_num
      apply Int.emod_eq_of_lt
      · omega
      · rw [hpow]
        omega
    unfold NBytesVersionReader.read
    simp only [bind, Except.bind, h1, h2, h3]
    have hcond : ¬ ((b2.pos : Int) + (K : Int) - 2 - (b2.pos : Int) ≠
        ((K : Int) - 2) % 2 ^ 32) := by
      rw [hK2]
      omega
    rw [if_neg hcond]

/-- Witness for C2's general vacuity conjunct: a child consuming 2 of the
declared 4 region bytes still succeeds. -/
theorem claim2_witness :
    NBytesVersionReader.read "elem" (BasicTypeReader.readU 2) []
        (BinaryBuffer.mk [0x40, 0, 0, 6, 0, 1, 0xAA, 0xBB, 0, 0] [0, 10] 0) =
      .ok ([0xAABB], BinaryBuffer.mk [0x40, 0, 0, 6, 0, 1, 0xAA, 0xBB, 0, 0] [0, 10] 8) :=
  claim2_nbytesversion_check_vacuous.2 (List Nat) (BasicTypeReader.readU 2) "elem" []
    (BinaryBuffer.mk [0x40, 0, 0, 6, 0, 1, 0xAA, 0xBB, 0, 0] [0, 10] 0) 6
    (BinaryBuffer.mk [0x40, 0, 0, 6, 0, 1, 0xAA, 0xBB, 0, 0] [0, 10] 4) 1
    (BinaryBuffer.mk [0x40, 0, 0, 6, 0, 1, 0xAA, 0xBB, 0, 0] [0, 10] 6) [0xAABB]
    (BinaryBuffer.mk [0x40, 0, 0, 6, 0, 1, 0xAA, 0xBB, 0, 0] [0, 10] 8)
    (by decide) (by decide) (by decide) (by decide)

theorem consumeHeader_shape {b : BinaryBuffer} {K p1 : Nat} {b3 : BinaryBuffer}
    (h : ObjectHeaderReader.consumeHeader b = .ok (K, p1, b3)) :
    ∃ nameLen, b3.pos = p1 + 4 + nameLen := by
  unfold ObjectHeaderReader.consumeHeader at h
  simp only [bind, Except.bind] at h
  cases h1 : b.read_fNBytes with
  | error e => rw [h1] at h; cases h
  | ok p =>
    rw [h1] at h
    simp only at h
    cases h2 : p.2.readPrim 4 with
    | error e => rw [h2] at h; cases h
    | ok q =>
      rw [h2] at h
      simp only at h
      obtain ⟨_, _, _, hq2⟩ := readPrim_ok h2
      split at h
      · cases h3 : q.2.read_null_terminated_string with
        | error e => rw [h3] at h; simp [Except.map] at h
        | ok r =>
          rw [h3] at h
          simp only [Except.map] at h
          cases h
          unfold BinaryBuffer.read_null_terminated_string at h3
          cases h4 : takeToNull (q.2.data.drop q.2.pos) with
          | none => rw [h4] at h3; cases h3
          | some str =>
            rw [h4] at h3
            cases h3
            refine ⟨str.length, ?_⟩
            simp [hq2]
      · cases h
        exact ⟨0, by simp [hq2]⟩

/-- Counterexample for C6 as stated: a successful `ObjectHeaderReader::read`
whose declared `fNBytes` is 8 while the child reader consumed only
`12 - 8 = 4` bytes (the 32-bit tag is part of the declared region), so the
child did not consume `fNBytes` bytes. -/
theorem claim6_counterexample :
    ObjectHeaderReader.read "elem" (BasicTypeReader.readU 4) []
        (BinaryBuffer.mk [0x40, 0, 0, 8, 0, 0, 0, 0, 0xDE, 0xAD, 0xBE, 0xEF] [0, 12] 0) =
      .ok ([0xDEADBEEF],
        BinaryBuffer.mk [0x40, 0, 0, 8, 0, 0, 0, 0, 0xDE, 0xAD, 0xBE, 0xEF] [0, 12] 12) ∧
    (BinaryBuffer.mk [0x40, 0, 0, 8, 0, 0, 0, 0, 0xDE, 0xAD, 0xBE, 0xEF] [0, 12] 0).read_fNBytes =
      .ok (8, BinaryBuffer.mk [0x40, 0, 0, 8, 0, 0, 0, 0, 0xDE, 0xAD, 0xBE, 0xEF] [0, 12] 4) ∧
    (12 : Nat) - 8 ≠ 8 := by
  refine ⟨by decide, by decide, by decide⟩

/-- Claim C6 (amended): `ObjectHeaderReader::read` reads `fNBytes = K` and a
32-bit tag, consumes a null-terminated class name exactly when the tag is
`-1`, invokes the child, and raises `FramingLengthMismatch` iff the final
cursor differs from the expected end (position after the `fNBytes` field
plus `K`); on every successful read the child consumed
`K - 4 - (class name bytes)` — the declared count minus the tag and
optional class name — not `K` itself. -/
theorem claim6_amended_objectheader (σ : Type) (nm : String) (child : ChildRead σ)
    (s : σ) (b : BinaryBuffer) (K p1 : Nat) (b3 : BinaryBuffer) (s1 : σ)
    (b4 : BinaryBuffer)
    (hhd : ObjectHeaderReader.consumeHeader b = .ok (K, p1, b3))
    (hch : child s b3 = .ok (s1, b4))
    (hadv : b3.pos ≤ b4.pos) :
    (b4.pos = p1 + K → ObjectHeaderReader.read nm child s b = .ok (s1, b4)) ∧
    (b4.pos ≠ p1 + K → ObjectHeaderReader.read nm child s b =
      .error (.framingLengthMismatch nm (((p1 + K : Nat) : Int) - (b3.pos : Int))
        ((b4.pos : Int) - (b3.pos : Int)))) ∧
    (b4.pos = p1 + K → ∃ nameLen, b3.pos = p1 + 4 + nameLen ∧
      b4.pos - b3.pos = K - (4 + nameLen) ∧ (b4.pos - b3.pos) + 4 + nameLen = K) := by
  refine ⟨?_, ?_, ?_⟩
  · intro hend
    unfold ObjectHeaderReader.read
    simp only [bind, Except.bind, hhd, hch]
    rw [if_neg (by omega)]
  · intro hend
    unfold ObjectHeaderReader.read
    simp only [bind, Except.bind, hhd, hch]
    rw [if_pos hend]
  · intro hend
    obtain ⟨nameLen, hnl⟩ := consumeHeader_shape hhd
    exact ⟨nameLen, hnl, by omega, by omega⟩

/-- Witness for C6 (amended) on a concrete framed object. -/
theorem claim6_witness :
    ObjectHeaderReader.read "elem" (BasicTypeReader.readU 4) []
        (BinaryBuffer.mk [0x40, 0, 0, 8, 0, 0, 0, 0, 1, 2, 3, 4] [0, 12] 0) =
      .ok ([0x01020304],
        BinaryBuffer.mk [0x40, 0, 0, 8, 0, 0, 0, 0, 1, 2, 3, 4] [0, 12] 12) :=
  (claim6_amended_objectheader (List Nat) "elem" (BasicTypeReader.readU 4) []
    (BinaryBuffer.mk [0x40, 0, 0, 8, 0, 0, 0, 0, 1, 2, 3, 4] [0, 12] 0) 8 4
    (BinaryBuffer.mk [0x40, 0, 0, 8, 0, 0, 0, 0, 1, 2, 3, 4] [0, 12] 8) [0x01020304]
    (BinaryBuffer.mk [0x40, 0, 0, 8, 0, 0, 0, 0, 1, 2, 3, 4] [0, 12] 12)
    (by decide) (by decide) (by decide)).1 (by decide)

theorem find?_first {α : Type} (p : α → Bool) :
    ∀ (l : List α) (a : α), l.find? p = some a →
    ∃ i, l[i]? = some a ∧ p a = true ∧
      ∀ j : Nat, j < i → ∀ v, l[j]? = some v → p v = false := by
  intro l
  induction l with
  | nil => intro a h; simp [List.find?] at h
  | cons c rest ih =>
    intro a h
    cases hpc : p c with
    | true =>
      rw [List.find?_cons_of_pos _ hpc] at h
      cases h
      exact ⟨0, by simp, hpc, by omega⟩
    | false =>
      rw [List.find?_cons_of_neg _ (by simp [hpc])] at h
      obtain ⟨i, hi, hpa, hmin⟩ := ih a h
      refine ⟨i + 1, by simpa using hi, hpa, ?_⟩
      intro j hj v hv
      cases j with
      | zero =>
        simp at hv
        subst hv
        exact hpc
      | succ j =>
        exact hmin j (by omega) v (by simpa using hv)

theorem readUntilEndFuel_le {σ : Type} (child : ChildRead σ) (endPos : Nat) :
    ∀ (fuel : Nat) (c : Nat) (s : σ) (b : BinaryBuffer) (r : Nat × σ × BinaryBuffer),
      readUntilEndFuel child endPos fuel c s b = .ok r →
      endPos ≤ r.2.2.pos ∧ c ≤ r.1 := by
  intro fuel
  induction fuel with
  | zero =>
    intro c s b r h
    unfold readUntilEndFuel at h
    by_cases hp : b.pos < endPos
    · rw [if_pos hp] at h
      cases h
    · rw [if_neg hp] at h
      cases h
      refine ⟨?_, Nat.le_refl c⟩
      show endPos ≤ b.pos
      omega
  | succ fuel ih =>
    intro c s b r h
    unfold readUntilEndFuel at h
    by_cases hp : b.pos < endPos
    · rw [if_pos hp] at h
      cases hc : child s b with
      | error e => rw [hc] at h; cases h
      | ok q =>
        obtain ⟨s1, bq⟩ := q
        rw [hc] at h
        simp only at h
        by_cases hadv : b.pos < bq.pos
        · rw [if_pos hadv] at h
          have := ih (c + 1) s1 bq r h
          exact ⟨this.1, by omega⟩
        · rw [if_neg hadv] at h
          cases h
    · rw [if_neg hp] at h
      cases h
      refine ⟨?_, Nat.le_refl c⟩
      show endPos ≤ b.pos
      omega

theorem readUntilEnd_le {σ : Type} (child : ChildRead σ) (endPos : Nat)
    (c : Nat) (s : σ) (b : BinaryBuffer) (r : Nat × σ × BinaryBuffer)
    (h : readUntilEnd child endPos c s b = .ok r) :
    endPos ≤ r.2.2.pos ∧ c ≤ r.1 :=
  readUntilEndFuel_le child endPos (endPos - b.pos) c s b r h

/-- Claim C3: the dynamic branch (`flat_size ≤ 0`) of
`CStyleArrayReader::read` finds the first entry of the event-offset table
strictly beyond the cursor (all earlier entries are at or before it),
treats it as the payload end, invokes the child reader until the cursor
reaches that end, and pushes `offsets.back() + count` onto its own offsets
vector, where `count` is the number of child invocations. -/
theorem claim3_cstylearray_dynamic (σ : Type) (child : ChildRead σ)
    (cc : Int → ChildRead σ) (flatSize : Int) (s0 : σ) (offs : List Nat)
    (b : BinaryBuffer) (q : σ × List Nat) (b1 : BinaryBuffer)
    (hfs : flatSize ≤ 0)
    (h : CStyleArrayReader.read flatSize cc child (s0, offs) b = .ok (q, b1)) :
    ∃ endPos count,
      b.offsets.find? (fun off => decide (b.pos < off)) = some endPos ∧
      b.pos < endPos ∧
      (∃ i, b.offsets[i]? = some endPos ∧
        ∀ j : Nat, j < i → ∀ v, b.offsets[j]? = some v → v ≤ b.pos) ∧
      readUntilEnd child endPos 0 s0 b = .ok (count, q.1, b1) ∧
      endPos ≤ b1.pos ∧
      q.2 = offs ++ [offs.getLastD 0 + count] := by
  unfold CStyleArrayReader.read at h
  rw [if_neg (by omega)] at h
  unfold CStyleArrayReader.readDyn at h
  cases hf : b.offsets.find? (fun off => decide (b.pos < off)) with
  | none => rw [hf] at h; cases h
  | some endPos =>
    rw [hf] at h
    simp only [bind, Except.bind] at h
    cases hr : readUntilEnd child endPos 0 s0 b with
    | error e => rw [hr] at h; cases h
    | ok r =>
      rw [hr] at h
      simp only at h
      cases h
      obtain ⟨i, hi, hpa, hmin⟩ := find?_first _ _ _ hf
      have hplt : b.pos < endPos := by simpa using hpa
      refine ⟨endPos, r.1, rfl, hplt, ⟨i, hi, ?_⟩, hr, ?_, rfl⟩
      · intro j hj v hv
        have hv2 := hmin j hj v hv
        simp at hv2
        omega
      · exact (readUntilEnd_le child endPos 0 s0 b r hr).1

/-- Witness for C3: a dynamic CArray of int8 spanning a 4-byte event. -/
theorem claim3_witness :
    (0 : Int) ≤ 0 ∧
    ∃ endPos count,
      (BinaryBuffer.mk [1, 2, 3, 4] [0, 4] 0).offsets.find?
        (fun off => decide ((BinaryBuffer.mk [1, 2, 3, 4] [0, 4] 0).pos < off)) =
          some endPos ∧
      (BinaryBuffer.mk [1, 2, 3, 4] [0, 4] 0).pos < endPos ∧
      (∃ i, (BinaryBuffer.mk [1, 2, 3, 4] [0, 4] 0).offsets[i]? = some endPos ∧
        ∀ j : Nat, j < i → ∀ v,
          (BinaryBuffer.mk [1, 2, 3, 4] [0, 4] 0).offsets[j]? = some v →
          v ≤ (BinaryBuffer.mk [1, 2, 3, 4] [0, 4] 0).pos) ∧
      readUntilEnd (BasicTypeReader.readI 1) endPos 0 []
        (BinaryBuffer.mk [1, 2, 3, 4] [0, 4] 0) =
        .ok (count, (([1, 2, 3, 4] : List Int), ([0, 4] : List Nat)).1,
          BinaryBuffer.mk [1, 2, 3, 4] [0, 4] 4) ∧
      endPos ≤ (BinaryBuffer.mk [1, 2, 3, 4] [0, 4] 4).pos ∧
      (([1, 2, 3, 4] : List Int), ([0, 4] : List Nat)).2 =
        [0] ++ [([0] : List Nat).getLastD 0 + count] :=
  ⟨le_refl 0,
   claim3_cstylearray_dynamic (List Int) (BasicTypeReader.readI 1)
     (fun _ => BasicTypeReader.readI 1) 0 [] [0]
     (BinaryBuffer.mk [1, 2, 3, 4] [0, 4] 0)
     ((([1, 2, 3, 4] : List Int), ([0, 4] : List Nat)))
     (BinaryBuffer.mk [1, 2, 3, 4] [0, 4] 4)
     (le_refl 0) (by decide)⟩

theorem driverLoop_ok {σ : Type} (readF : ChildRead σ) (name : String)
    (offsets : List Nat) :
    ∀ (n i : Nat) (s : σ) (b : BinaryBuffer) (sF : σ) (bF : BinaryBuffer)
      (ls : List Nat),
      runTrace readF n s b = .ok (sF, bF, ls) →
      (∀ j : Nat, j < n → ls.getD j 0 = eventLen offsets (i + j)) →
      driverLoop readF name offsets n i s b = .ok (sF, bF) := by
  intro n
  induction n with
  | zero =>
    intro i s b sF bF ls h hm
    unfold runTrace at h
    cases h
    rfl
  | succ n ih =>
    intro i s b sF bF ls h hm
    unfold runTrace at h
    cases hc : readF s b with
    | error e => rw [hc] at h; cases h
    | ok q =>
      obtain ⟨s1, b1⟩ := q
      rw [hc] at h
      simp only [bind, Except.bind] at h
      cases ht : runTrace readF n s1 b1 with
      | error e => rw [ht] at h; cases h
      | ok r =>
        obtain ⟨s2, b2, ls'⟩ := r
        rw [ht] at h
        simp only at h
        cases h
        unfold driverLoop
        rw [hc]
        simp only
        have h0 : b1.pos - b.pos = eventLen offsets i := by
          have := hm 0 (by omega)
          simpa using this
        rw [if_neg (by simp [h0])]
        apply ih (i + 1) s1 b1 sF bF ls' ht
        intro j hj
        have := hm (j + 1) (by omega)
        simp only [List.getD_cons_succ] at this
        rw [this]
        congr 1
        omega

theorem driverLoop_err {σ : Type} (readF : ChildRead σ) (name : String)
    (offsets : List Nat) :
    ∀ (m : Nat) (n i : Nat) (s : σ) (b : BinaryBuffer) (s' : σ)
      (b' : BinaryBuffer) (ls : List Nat),
      m < n →
      runTrace readF (m + 1) s b = .ok (s', b', ls) →
      (∀ j : Nat, j < m → ls.getD j 0 = eventLen offsets (i + j)) →
      ls.getD m 0 ≠ eventLen offsets (i + m) →
      driverLoop readF name offsets n i s b =
        .error (.eventLengthMismatch (i + m) (eventLen offsets (i + m))
          (ls.getD m 0) name) := by
  intro m
  induction m with
  | zero =>
    intro n i s b s' b' ls hn h hm hne
    obtain ⟨n', rfl⟩ : ∃ n', n = n' + 1 := ⟨n - 1, by omega⟩
    unfold runTrace at h
    cases hc : readF s b with
    | error e => rw [hc] at h; cases h
    | ok q =>
      obtain ⟨s1, b1⟩ := q
      rw [hc] at h
      simp only [bind, Except.bind] at h
      cases ht : runTrace readF 0 s1 b1 with
      | error e => rw [ht] at h; cases h
      | ok r =>
        rw [ht] at h
        simp only at h
        unfold runTrace at ht
        cases ht
        cases h
        unfold driverLoop
        rw [hc]
        simp only
        rw [if_pos (by simpa using hne)]
        simp
  | succ m ih =>
    intro n i s b s' b' ls hn h hm hne
    obtain ⟨n', rfl⟩ : ∃ n', n = n' + 1 := ⟨n - 1, by omega⟩
    unfold runTrace at h
    cases hc : readF s b with
    | error e => rw [hc] at h; cases h
    | ok q =>
      obtain ⟨s1, b1⟩ := q
      rw [hc] at h
      simp only [bind, Except.bind] at h
      cases ht : runTrace readF (m + 1) s1 b1 with
      | error e => rw [ht] at h; cases h
      | ok r =>
        obtain ⟨s2, b2, ls'⟩ := r
        rw [ht] at h
        simp only at h
        cases h
        unfold driverLoop
        rw [hc]
        simp only
        have h0 : b1.pos - b.pos = eventLen offsets i := by
          have := hm 0 (by omega)
          simpa using this
        rw [if_neg (by simp [h0])]
        have hrec := ih n' (i + 1) s1 b1 s' b' ls' (by omega) ht
          (by
            intro j hj
            have := hm (j + 1) (by omega)
            simp only [List.getD_cons_succ] at this
            rw [this]
            congr 1
            omega)
          (by
            have : (i + 1) + m = i + (m + 1) := by omega
            rw [this]
            simpa using hne)
        rw [hrec]
        have hidx : (i + 1) + m = i + (m + 1) := by omega
        rw [hidx]
        simp

/-- Claim C1: `uproot::py_read_data` runs the root reader once per event,
comparing the bytes consumed (cursor after minus cursor before) with
`offsets[i+1] - offsets[i]`; if every event matches it returns the root
reader's `data()`, and at the first event whose consumed length differs it
fails with an `EventLengthMismatch` error carrying the event index, the
expected and actual lengths, and the root reader's name. -/
theorem claim1_py_read_data (σ α : Type) (readF : ChildRead σ) (dataF : σ → α)
    (name : String) (data offsets : List Nat) (s0 : σ) :
    (∀ (sF : σ) (bF : BinaryBuffer) (ls : List Nat),
      runTrace readF (offsets.length - 1) s0 (BinaryBuffer.mk data offsets 0) =
        .ok (sF, bF, ls) →
      (∀ i : Nat, i < offsets.length - 1 → ls.getD i 0 = eventLen offsets i) →
      py_read_data readF dataF name data offsets s0 = .ok (dataF sF)) ∧
    (∀ (m : Nat) (s' : σ) (b' : BinaryBuffer) (ls : List Nat),
      m < offsets.length - 1 →
      runTrace readF (m + 1) s0 (BinaryBuffer.mk data offsets 0) = .ok (s', b', ls) →
      (∀ j : Nat, j < m → ls.getD j 0 = eventLen offsets j) →
      ls.getD m 0 ≠ eventLen offsets m →
      py_read_data readF dataF name data offsets s0 =
        .error (.eventLengthMismatch m (eventLen offsets m) (ls.getD m 0) name)) := by
  constructor
  · intro sF bF ls h hm
    unfold py_read_data
    have hd := driverLoop_ok readF name offsets (offsets.length - 1) 0 s0
      (BinaryBuffer.mk data offsets 0) sF bF ls h
      (by intro j hj; simpa using hm j hj)
    simp only [hd, Except.map]
  · intro m s' b' ls hn h hm hne
    unfold py_read_data
    have hd := driverLoop_err readF name offsets m (offsets.length - 1) 0 s0
      (BinaryBuffer.mk data offsets 0) s' b' ls hn h
      (by intro j hj; simpa using hm j hj)
      (by simpa using hne)
    simp only [Nat.zero_add] at hd
    simp only [hd, Except.map]

/-- Witness for C1: the two-event byte-reader decode succeeds, and a
deliberately short second event raises the mismatch error at event 1. -/
theorem claim1_witness :
    (py_read_data (BasicTypeReader.readU 1) id "x" [5, 6] [0, 1, 2] [] =
      .ok (id [5, 6])) ∧
    (py_read_data (BasicTypeReader.readU 2) id "y" [5, 6, 7, 8] [0, 2, 3] [] =
      .error (.eventLengthMismatch 1 (eventLen [0, 2, 3] 1)
        (([2, 2] : List Nat).getD 1 0) "y")) :=
  ⟨(claim1_py_read_data (List Nat) (List Nat) (BasicTypeReader.readU 1) id "x"
      [5, 6] [0, 1, 2] []).1 [5, 6] (BinaryBuffer.mk [5, 6] [0, 1, 2] 2) [1, 1]
      (by decide) (by decide),
   (claim1_py_read_data (List Nat) (List Nat) (BasicTypeReader.readU 2) id "y"
      [5, 6, 7, 8] [0, 2, 3] []).2 1 [0x0506, 0x0708]
      (BinaryBuffer.mk [5, 6, 7, 8] [0, 2, 3] 4) [2, 2]
      (by decide) (by decide) (by decide) (by decide)⟩
